import Mathlib

/-!
Shallow embedding of the tagged multi-strategy memory allocation subsystem of
a172_core (memory_system.hpp, the memory-system part of src/string.cpp, and
c_allocator.cpp), together with proofs settling the frozen claims about it.

Machine integers are modelled as `Nat` with explicit `% 2^w` where overflow
matters.  Addresses and pointer values are `Nat` (a null pointer is `0`).
The stack and free-list allocator implementation files are not part of this
source tree; where a claim needs them they are modelled from the spec and
marked as such.
-/

namespace A172

/-- `#define MEMORY_PADDING 8` (memory_system.hpp). -/
def MEMORY_PADDING : Nat := 8

/-- `#define KB 1024` (memory_system.hpp). -/
def KB : Nat := 1024

/-- Modulus of `MemoryTagType` (`uint16`, memory_system.hpp). -/
def tagMod : Nat := 2 ^ 16

/-- `MemoryTag::INVALID = MemoryTag((MemoryTagType) -1)`: the all-ones value
of the 16-bit tag type (memory_system.cpp). -/
def INVALID : Nat := tagMod - 1

/-- Largest `uint64` value; `CAllocator`'s constructor sets
`_start_ptr = (void*) uint64_max` (c_allocator.cpp). -/
def uint64_max : Nat := 2 ^ 64 - 1

/-- The default `MemoryTag` constructor: `MemoryTag() : id(id_count++) {}`
(memory_system.hpp).  Input: the current value of the static counter
`MemoryTag::id_count`; output: the issued id and the new counter value
(`uint16` arithmetic). -/
def newTag (c : Nat) : Nat × Nat := (c % tagMod, (c + 1) % tagMod)

/-- Result of statically constructing the `BaseMemoryTags` instance
(memory_system.hpp lines 46-71): the ids of the eight members and the value
of `MemoryTag::id_count` after the constructor finished. -/
structure BaseTagsResult where
  Unknown : Nat
  Temp : Nat
  Array : Nat
  List : Nat
  Map : Nat
  Set : Nat
  StringT : Nat
  Callback : Nat
  idCountAfter : Nat
deriving DecidableEq, Repr

/-- Construction of `BaseMemoryTags` (memory_system.hpp).  C++ order: the
base-class body `MemoryTagStruct() { MemoryTag::id_count = 0; }` runs first,
then the eight members are default-constructed in declaration order, then the
derived body `BaseMemoryTags() { MemoryTag::id_count = 0; }` runs, resetting
the counter again. -/
def constructBaseMemoryTags : BaseTagsResult :=
  let c0 := 0
  let r1 := newTag c0
  let r2 := newTag r1.2
  let r3 := newTag r2.2
  let r4 := newTag r3.2
  let r5 := newTag r4.2
  let r6 := newTag r5.2
  let r7 := newTag r6.2
  let r8 := newTag r7.2
  { Unknown := r1.1, Temp := r2.1, Array := r3.1, List := r4.1,
    Map := r5.1, Set := r6.1, StringT := r7.1, Callback := r8.1,
    idCountAfter := 0 }

-- ---------------------------------------------------------------------------
-- Allocator strategies
-- ---------------------------------------------------------------------------

/-- The three strategy kinds behind the `Allocator` interface:
`CAllocator` (pass-through), `StackAllocator`, `FreeListAllocator`. -/
inductive AllocatorKind where
  | c
  | stack
  | freeList
deriving DecidableEq, Repr

/-- An allocator instance.  `base` is `start()` (the base address of the
managed region, or `uint64_max` for `CAllocator`), `capacity` is
`total_size()`, `used`/`peak` the usage counters. -/
structure Allocator where
  kind : AllocatorKind
  base : Nat
  capacity : Nat
  used : Nat
  peak : Nat
deriving DecidableEq, Repr

/-- `CAllocator::CAllocator() : Allocator(0) { _start_ptr = (void*) uint64_max; }`
(c_allocator.cpp): total size 0, base address the all-ones value. -/
def CAllocator_new : Allocator :=
  { kind := .c, base := uint64_max, capacity := 0, used := 0, peak := 0 }

/-- Modelled from the spec: `StackAllocator(capacity)` after `init()` — the
stack strategy owns a fixed contiguous region `[base, base+capacity)` with
zeroed usage counters; its implementation file is not in the source tree, so
the region's base address (chosen by the system allocator) is a parameter. -/
def StackAllocator_new (base capacity : Nat) : Allocator :=
  { kind := .stack, base := base, capacity := capacity, used := 0, peak := 0 }

/-- Modelled from the spec: `FreeListAllocator(capacity, FindFirst)` after
`init()` — owns a fixed contiguous region `[base, base+capacity)`; its
implementation file is not in the source tree, so the base is a parameter. -/
def FreeListAllocator_new (base capacity : Nat) : Allocator :=
  { kind := .freeList, base := base, capacity := capacity, used := 0, peak := 0 }

/-- Ownership predicate `owns(ptr)`.  The `CAllocator` case is
`ptr != nullptr` (c_allocator.cpp).  The stack and free-list cases are
modelled from the spec: a range test against the managed region
`[base, base+capacity)`. -/
def Allocator.owns (a : Allocator) (p : Nat) : Bool :=
  match a.kind with
  | .c => p ≠ 0
  | .stack => a.base ≤ p ∧ p < a.base + a.capacity
  | .freeList => a.base ≤ p ∧ p < a.base + a.capacity

/-- Round `p` up to the next multiple of `align`. -/
def alignUp (p align : Nat) : Nat := p + (align - p % align) % align

/-- Modelled from the spec: the stack (bump) strategy's `allocate` — advances
the cursor by the aligned size and fails ("arena exhausted") when the cursor
would exceed capacity; updates used/peak counters.  Its implementation file
is not in the source tree. -/
def Allocator.stackAllocate (a : Allocator) (size align : Nat) :
    Option (Nat × Allocator) :=
  let p := alignUp (a.base + a.used) align
  let newUsed := p + size - a.base
  if a.capacity < newUsed then none
  else some (p, { a with used := newUsed, peak := max a.peak newUsed })

/-- `allocate(size, alignment)` of a strategy.  `sysAlloc` is the system
allocator (`::operator new`), modelled as an oracle from request size to the
returned address; the `CAllocator` case forwards to it (c_allocator.cpp).
The stack case is modelled from the spec.  The free-list case's internals are
not in the source tree and no claim below evaluates it; it is left
unmodelled (treated as exhaustion). -/
def Allocator.allocate (sysAlloc : Nat → Nat) (a : Allocator)
    (size align : Nat) : Option (Nat × Allocator) :=
  match a.kind with
  | .c => some (sysAlloc size, a)
  | .stack => a.stackAllocate size align
  | .freeList => none

/-- Where a strategy's `free(ptr)` routes the released pointer. -/
inductive FreeRoute where
  | system
  | internal
  | noop
deriving DecidableEq, Repr

/-- `free(ptr)` of a strategy.  The `CAllocator` case forwards the pointer to
the system deallocator (`::operator delete`, c_allocator.cpp).  The stack
case is modelled from the spec (no isolated free; only `reset` reclaims).
The free-list case reinserts the block into the free chain (spec); its block
bookkeeping is internal to the missing implementation file and no claim below
depends on it. -/
def Allocator.free (a : Allocator) (_p : Nat) : Allocator × FreeRoute :=
  match a.kind with
  | .c => (a, .system)
  | .stack => (a, .noop)
  | .freeList => (a, .internal)

-- ---------------------------------------------------------------------------
-- Memory map (MemorySystem::MemoryMap : std::map<uint64, MemoryTag>)
-- ---------------------------------------------------------------------------

/-- One `std::map` entry: (base address, tag id). -/
abbrev Entry := Nat × Nat

/-- The `std::map` invariant: keys strictly ascending. -/
def sortedKeys (l : List Entry) : Prop :=
  l.Pairwise (fun a b => a.1 < b.1)

/-- `MemorySystem::MemoryMap` (memory_system.hpp): a `std::map` from base
address to owning tag, plus the `_dying` flag set by its destructor. -/
structure MemoryMap where
  entries : List Entry
  dying : Bool
deriving DecidableEq, Repr

/-- Does the map contain the key `k`? -/
def containsKey (l : List Entry) (k : Nat) : Bool :=
  l.any (fun e => e.1 = k)

/-- `map[k] = v` on the sorted entry list: inserts at the sorted position, or
overwrites the mapped value when the key is already present (the semantics of
`std::map::operator[]` followed by assignment). -/
def insertSorted (l : List Entry) (k v : Nat) : List Entry :=
  match l with
  | [] => [(k, v)]
  | e :: rest =>
    if k < e.1 then (k, v) :: e :: rest
    else if k = e.1 then (k, v) :: rest
    else e :: insertSorted rest k v

/-- `MemoryMap::get_first_before(address)` (memory_system.cpp lines 438-456):
null check, `_dying` check, then `lower_bound`, stepping back one entry when
the found key is not an exact match (returning `INVALID` when that would step
before `begin()`).  `lower_bound(address)` on the sorted entry list is the
suffix left by dropping all keys `< address`; the decrement at `end()` takes
the map's last entry.  (On an empty map the C++ decrements `begin()`, which
is undefined behaviour; that branch is represented as `INVALID` and every
theorem touching it assumes a non-empty map.) -/
def MemoryMap.get_first_before (m : MemoryMap) (address : Nat) : Nat :=
  if address = 0 then INVALID
  else if m.dying then INVALID
  else
    match m.entries.dropWhile (fun e => e.1 < address) with
    | [] =>
      match m.entries.getLast? with
      | some e => e.2
      | none => INVALID
    | e :: _ =>
      if e.1 ≠ address then
        match (m.entries.takeWhile (fun e => e.1 < address)).getLast? with
        | some e' => e'.2
        | none => INVALID
      else e.2

/-- Spec-side reference function for claim C3, following the spec's words:
"the greatest registered base ≤ address" — the last (hence, on a sorted list,
greatest-keyed) entry whose key is at most `address`. -/
def nearestLE (l : List Entry) (address : Nat) : Option Entry :=
  (l.filter (fun e => e.1 ≤ address)).getLast?

-- ---------------------------------------------------------------------------
-- MemorySystem state and operations
-- ---------------------------------------------------------------------------

/-- The static state of `MemorySystem`.  C++ shares allocator instances by
pointer (several directory slots may point at one instance), so instances
live in `heap` and the directory `arr` (`_allocator_array`) stores raw
pointer values: `0` is the null pointer and the value `j + 1` is the address
of `heap[j]`.  `aaSize` is `_aa_size`, `idCount` is `MemoryTag::id_count`. -/
structure MemState where
  heap : List Allocator
  arr : List Nat
  aaSize : Nat
  idCount : Nat
  mmap : MemoryMap
deriving DecidableEq, Repr

/-- Dereference an allocator pointer value (see `MemState.arr`). -/
def MemState.deref (s : MemState) (h : Nat) : Allocator :=
  s.heap.getD (h - 1) CAllocator_new

/-- Size of an `Allocator*` in bytes (64-bit platform). -/
def ptrBytes : Nat := 8

/-- Value of 8-byte destination entry `i` after
`memcpy(dst, old, n)` where `dst` was zero-initialized: fully covered
entries are copied, the entry straddling the copy boundary keeps its low
`n mod 8` bytes (little-endian), later entries stay null. -/
def memcpyEntry (old : List Nat) (n i : Nat) : Nat :=
  if ptrBytes * (i + 1) ≤ n then old.getD i 0
  else if ptrBytes * i < n then (old.getD i 0) % 2 ^ (8 * (n - ptrBytes * i))
  else 0

/-- `MemorySystem::update_allocator_array()` (memory_system.cpp lines
424-432): allocates a zero-initialized array of `id_count` pointers, then
`memcpy(_allocator_array, old_aa, _aa_size)` — note the length argument is
`_aa_size`, a count of entries, used as a count of BYTES — and finally sets
`_aa_size = id_count`.  Returns the new array contents and new `_aa_size`. -/
def update_allocator_array (oldArr : List Nat) (aaSize idCount : Nat) :
    List Nat × Nat :=
  ((List.range idCount).map (memcpyEntry oldArr aaSize), idCount)

/-- `MemorySystem::register_tag(tag, allocator)` (memory_system.cpp lines
381-385): grow the directory when `_aa_size < id_count`, store the allocator
pointer at index `tag.id`, then `_memory_map[allocator.start()] = tag`.
`std::map::operator[]` default-constructs the mapped `MemoryTag` when the key
is absent, which runs `id_count++` as a side effect before the assignment
overwrites the id.  (The C++ store is an out-of-bounds write when `tag.id`
is not below the array length; `List.set` leaves the list unchanged there,
and every theorem below stays in bounds.) -/
def register_tag (s : MemState) (t hAlloc : Nat) : MemState :=
  let s :=
    if s.aaSize < s.idCount then
      let g := update_allocator_array s.arr s.aaSize s.idCount
      { s with arr := g.1, aaSize := g.2 }
    else s
  let base := (s.deref hAlloc).base
  { s with
    arr := s.arr.set t hAlloc,
    idCount :=
      if containsKey s.mmap.entries base then s.idCount
      else (s.idCount + 1) % tagMod,
    mmap := { s.mmap with entries := insertSorted s.mmap.entries base t } }

namespace MemorySystem

/-- `MemorySystem::allocate(size, tag)` (memory_system.cpp lines 317-320):
look up the tag's allocator in the directory and delegate with
`MEMORY_PADDING` alignment.  On success the mutated allocator instance is
written back to the heap. -/
def allocate (sysAlloc : Nat → Nat) (s : MemState) (size t : Nat) :
    Option (Nat × MemState) :=
  let h := s.arr.getD t 0
  match (s.deref h).allocate sysAlloc size MEMORY_PADDING with
  | some pa => some (pa.1, { s with heap := s.heap.set (h - 1) pa.2 })
  | none => none

/-- `MemorySystem::get_owner(p)` (memory_system.cpp lines 368-379): nearest
registered base at or before the address via `get_first_before`, then the
candidate tag's strategy must confirm `owns(p)`. -/
def get_owner (s : MemState) (p : Nat) : Nat :=
  let tag := s.mmap.get_first_before p
  if tag = INVALID then tag
  else if (s.deref (s.arr.getD tag 0)).owns p = false then INVALID
  else tag

/-- Outcome of `MemorySystem::deallocate`: the fatal exit, or a free routed
through the allocator at pointer value `h`. -/
inductive DeallocResult where
  | fatal
  | ok (h : Nat) (route : FreeRoute) (s : MemState)
deriving DecidableEq, Repr

/-- `MemorySystem::deallocate(ptr, tag)` (memory_system.cpp lines 321-329):
look up the tag's allocator; when it does not own `ptr`, log and
`exit(EXIT_FAILURE)` (the `fatal` outcome); otherwise free through it. -/
def deallocate (s : MemState) (p t : Nat) : DeallocResult :=
  let h := s.arr.getD t 0
  let a := s.deref h
  if a.owns p = false then .fatal
  else
    let fr := a.free p
    .ok h fr.2 { s with heap := s.heap.set (h - 1) fr.1 }

end MemorySystem

/-- What the global `operator delete(p)` does with the pointer. -/
inductive DeleteAction where
  | viaMemorySystem (t : Nat) (r : MemorySystem.DeallocResult)
  | systemFree
deriving DecidableEq, Repr

/-- Global `operator delete(p)` (memory_system.cpp lines 471-475): determine
the owner; when it is not `INVALID`, route to `MemorySystem::deallocate`,
otherwise fall back to the system `free(p)`. -/
def opDelete (s : MemState) (p : Nat) : DeleteAction :=
  let t := MemorySystem.get_owner s p
  if t ≠ INVALID then .viaMemorySystem t (MemorySystem.deallocate s p t)
  else .systemFree

/-- Global `operator delete[](p)` (memory_system.cpp line 476): calls
`::operator delete(p)`. -/
def opDeleteArr (s : MemState) (p : Nat) : DeleteAction := opDelete s p

/-- The assignments of `initialize_allocator_array` (memory_system.cpp lines
392-394, macro `assign_allocator`): store the allocator pointer at the tag's
index and run `memory_map[allocator->start()] = tag` (with the
`operator[]` insertion's `id_count++` side effect on a fresh key). -/
def assignAllocator (s : MemState) (t hAlloc : Nat) : MemState :=
  let base := (s.deref hAlloc).base
  { s with
    arr := s.arr.set t hAlloc,
    idCount :=
      if containsKey s.mmap.entries base then s.idCount
      else (s.idCount + 1) % tagMod,
    mmap := { s.mmap with entries := insertSorted s.mmap.entries base t } }

/-- `MemorySystem::initialize_allocator_array` (memory_system.cpp lines
396-422): create the `CAllocator`, a `StackAllocator(KB)` and a
`FreeListAllocator(128 * KB, FindFirst)`, `init()` each, and assign them to
the eight base tags in declaration order (`Unknown`, `Temp`, then
`Array`/`List`/`Map`/`Set`/`String`/`Callback` all sharing the free-list
instance).  `sb` and `fb` are the system-chosen base addresses of the stack
and free-list regions.  The C++ sizes the pointer array with
`MemoryTag::id_count`, which at this point has been reset to 0 by the
`BaseMemoryTags` constructor (see C6), making the eight stores out-of-bounds
writes; that undefined behaviour is not representable here, so the array is
given the intended length 8.  `_aa_size`'s initializer is likewise not in
the source tree; it is set to that length. -/
def initialState (sb fb : Nat) : MemState :=
  let s0 : MemState :=
    { heap := [CAllocator_new, StackAllocator_new sb KB,
               FreeListAllocator_new fb (128 * KB)],
      arr := List.replicate 8 0,
      aaSize := 8,
      idCount := 0,
      mmap := { entries := [], dying := false } }
  let b := constructBaseMemoryTags
  let s1 := assignAllocator s0 b.Unknown 1
  let s2 := assignAllocator s1 b.Temp 2
  let s3 := assignAllocator s2 b.Array 3
  let s4 := assignAllocator s3 b.List 3
  let s5 := assignAllocator s4 b.Map 3
  let s6 := assignAllocator s5 b.Set 3
  let s7 := assignAllocator s6 b.StringT 3
  assignAllocator s7 b.Callback 3

-- ---------------------------------------------------------------------------
-- Example states (used by witnesses and counterexamples)
-- ---------------------------------------------------------------------------

/-- Example state: tag 0 backed by a stack allocator over [1000, 2024),
tag 1 by the pass-through allocator. -/
def exState : MemState :=
  { heap := [StackAllocator_new 1000 1024, CAllocator_new],
    arr := [1, 2],
    aaSize := 2,
    idCount := 2,
    mmap := { entries := [(1000, 0), (uint64_max, 1)], dying := false } }

/-- The same example state after its `MemoryMap`'s destructor has begun. -/
def exDying : MemState :=
  { exState with mmap := { entries := [(1000, 0), (uint64_max, 1)],
                           dying := true } }

/-- Start state for the shared-strategy scenarios: one stack allocator
instance on the heap, a directory of eight empty slots, two issued but not
yet registered tags. -/
def exShared0 : MemState :=
  { heap := [StackAllocator_new 1000 1024],
    arr := List.replicate 8 0,
    aaSize := 8,
    idCount := 2,
    mmap := { entries := [], dying := false } }

/-- Tags 0 and 1 registered, in that order, against the one shared stack
strategy of `exShared0`. -/
def exShared : MemState := register_tag (register_tag exShared0 0 1) 1 1

/-- A state with a single tag 0 uniquely registered against a stack
strategy over [1000, 2024). -/
def exSingle : MemState :=
  { heap := [StackAllocator_new 1000 1024],
    arr := [1],
    aaSize := 1,
    idCount := 1,
    mmap := { entries := [(1000, 0)], dying := false } }

/-- `exSingle` after `allocate(100, 0)` bumped the stack cursor to 100. -/
def exSingleAfter : MemState :=
  { heap := [{ kind := .stack, base := 1000, capacity := 1024,
               used := 100, peak := 100 }],
    arr := [1],
    aaSize := 1,
    idCount := 1,
    mmap := { entries := [(1000, 0)], dying := false } }

/-- `exShared` after `allocate(100, 0)` bumped the shared stack cursor. -/
def exSharedAfter : MemState :=
  { heap := [{ kind := .stack, base := 1000, capacity := 1024,
               used := 100, peak := 100 }],
    arr := [1, 1, 0, 0, 0, 0, 0, 0],
    aaSize := 8,
    idCount := 3,
    mmap := { entries := [(1000, 1)], dying := false } }

-- ---------------------------------------------------------------------------
-- Helper lemmas
-- ---------------------------------------------------------------------------

theorem head_dropWhile_false {α : Type} (p : α → Bool) {l : List α} {e : α}
    {rest : List α} (h : l.dropWhile p = e :: rest) : p e = false := by
  induction l with
  | nil => simp at h
  | cons x xs ih =>
    rw [List.dropWhile_cons] at h
    split at h
    · exact ih h
    · next hx =>
      injection h with h1 _
      subst h1
      simpa using hx

theorem sorted_getLast?_max {l : List Entry} (hs : sortedKeys l) {k v : Nat}
    (hm : (k, v) ∈ l) (hmax : ∀ e ∈ l, e.1 ≤ k) : l.getLast? = some (k, v) := by
  induction l with
  | nil => cases hm
  | cons x xs ih =>
    cases xs with
    | nil =>
      cases hm with
      | head => simp
      | tail _ h => cases h
    | cons y ys =>
      have hy : x.1 < y.1 :=
        (List.pairwise_cons.mp hs).1 y (List.mem_cons_self y ys)
      have hm' : (k, v) ∈ y :: ys := by
        cases hm with
        | head =>
          exfalso
          have hyk : y.1 ≤ k :=
            hmax y (List.mem_cons_of_mem _ (List.mem_cons_self y ys))
          omega
        | tail _ h => exact h
      rw [List.getLast?_cons_cons]
      exact ih (List.pairwise_cons.mp hs).2 hm'
        (fun e he => hmax e (List.mem_cons_of_mem _ he))

theorem nearestLE_eq_of_mem {l : List Entry} (hs : sortedKeys l) {k v a : Nat}
    (hm : (k, v) ∈ l) (hka : k ≤ a)
    (hsep : ∀ e ∈ l, e.1 ≤ k ∨ a < e.1) :
    nearestLE l a = some (k, v) := by
  unfold nearestLE
  apply sorted_getLast?_max
  · exact List.Pairwise.sublist (List.filter_sublist l) hs
  · exact List.mem_filter.mpr ⟨hm, by simpa using hka⟩
  · intro e he
    have hea : e.1 ≤ a := by simpa using List.of_mem_filter he
    rcases hsep e (List.mem_of_mem_filter he) with h | h
    · exact h
    · omega

theorem get_first_before_eq_nearestLE (m : MemoryMap) (hs : sortedKeys m.entries)
    (hd : m.dying = false) (hne : m.entries ≠ []) (address : Nat) :
    m.get_first_before address =
      (if address = 0 then INVALID
       else
         match nearestLE m.entries address with
         | none => INVALID
         | some e => e.2) := by
  by_cases h0 : address = 0
  · simp [MemoryMap.get_first_before, h0]
  · rw [if_neg h0]
    cases hdrop : m.entries.dropWhile (fun e => decide (e.1 < address)) with
    | nil =>
      have hall : ∀ x ∈ m.entries, x.1 < address := by
        intro x hx
        simpa using List.dropWhile_eq_nil_iff.mp hdrop x hx
      have hfilter :
          m.entries.filter (fun e => decide (e.1 ≤ address)) = m.entries :=
        List.filter_eq_self.mpr
          (fun e he => by simpa using Nat.le_of_lt (hall e he))
      obtain ⟨e, he⟩ : ∃ e, m.entries.getLast? = some e :=
        Option.isSome_iff_exists.mp (List.getLast?_isSome.mpr hne)
      have hnear : nearestLE m.entries address = some e := by
        unfold nearestLE
        rw [hfilter, he]
      simp only [MemoryMap.get_first_before, if_neg h0, hd, Bool.false_eq_true,
        if_false, hdrop, hnear, he]
    | cons e rest =>
      have hPe :=
        head_dropWhile_false (fun e : Entry => decide (e.1 < address)) hdrop
      have hae : address ≤ e.1 := by simpa using hPe
      have hdecomp :
          m.entries.takeWhile (fun e => decide (e.1 < address)) ++ e :: rest
            = m.entries := by
        rw [← hdrop]
        exact List.takeWhile_append_dropWhile _ _
      have hpre : ∀ x ∈ m.entries.takeWhile
          (fun e : Entry => decide (e.1 < address)), x.1 < address := by
        intro x hx
        simpa using List.mem_takeWhile_imp hx
      have hsuf : sortedKeys (e :: rest) := by
        refine List.Pairwise.sublist ?_ hs
        rw [← hdrop]
        exact List.dropWhile_sublist _
      have hrest : ∀ f ∈ rest, e.1 < f.1 := (List.pairwise_cons.mp hsuf).1
      have hfilterRest :
          rest.filter (fun x : Entry => decide (x.1 ≤ address)) = [] := by
        refine List.filter_eq_nil_iff.mpr ?_
        intro f hf
        have := hrest f hf
        simp only [decide_eq_true_eq]
        omega
      have hfilterPre :
          (m.entries.takeWhile (fun e : Entry => decide (e.1 < address))).filter
              (fun x => decide (x.1 ≤ address))
            = m.entries.takeWhile (fun e : Entry => decide (e.1 < address)) :=
        List.filter_eq_self.mpr
          (fun x hx => by simpa using Nat.le_of_lt (hpre x hx))
      by_cases he1 : e.1 = address
      · have hQ : decide (e.1 ≤ address) = true := by simp [he1]
        have hnear : nearestLE m.entries address = some e := by
          unfold nearestLE
          conv_lhs => rw [← hdecomp]
          rw [List.filter_append, hfilterPre, List.filter_cons, if_pos hQ,
            hfilterRest, List.getLast?_concat]
        simp only [MemoryMap.get_first_before, if_neg h0, hd,
          Bool.false_eq_true, if_false, hdrop, hnear]
        simp [he1]
      · have hQ : ¬(decide (e.1 ≤ address) = true) := by
          simp only [decide_eq_true_eq]
          omega
        have hnear : nearestLE m.entries address =
            (m.entries.takeWhile
              (fun e : Entry => decide (e.1 < address))).getLast? := by
          unfold nearestLE
          conv_lhs => rw [← hdecomp]
          rw [List.filter_append, hfilterPre, List.filter_cons, if_neg hQ,
            hfilterRest, List.append_nil]
        simp only [MemoryMap.get_first_before, if_neg h0, hd,
          Bool.false_eq_true, if_false, hdrop, hnear]
        rw [if_pos he1]
        cases (m.entries.takeWhile
            (fun e : Entry => decide (e.1 < address))).getLast? <;> rfl

theorem get_first_before_of_mem (m : MemoryMap) (hs : sortedKeys m.entries)
    (hd : m.dying = false) {k v a : Nat} (h0 : a ≠ 0)
    (hm : (k, v) ∈ m.entries) (hka : k ≤ a)
    (hsep : ∀ e ∈ m.entries, e.1 ≤ k ∨ a < e.1) :
    m.get_first_before a = v := by
  have hne : m.entries ≠ [] := by
    intro h
    rw [h] at hm
    cases hm
  rw [get_first_before_eq_nearestLE m hs hd hne a, if_neg h0,
    nearestLE_eq_of_mem hs hm hka hsep]
theorem nearestLE_eq_none_iff (l : List Entry) (a : Nat) :
    nearestLE l a = none ↔ ∀ e ∈ l, a < e.1 := by
  unfold nearestLE
  rw [← Option.not_isSome_iff_eq_none, List.getLast?_isSome, not_not,
    List.filter_eq_nil_iff]
  simp

theorem get_first_before_dying (m : MemoryMap) (hdying : m.dying = true)
    (p : Nat) : m.get_first_before p = INVALID := by
  unfold MemoryMap.get_first_before
  by_cases h0 : p = 0
  · rw [if_pos h0]
  · rw [if_neg h0, hdying]
    simp

theorem getD_set_self {α : Type} (l : List α) (i : Nat) (a d : α)
    (h : i < l.length) : (l.set i a).getD i d = a := by
  rw [List.getD_eq_getElem?_getD, List.getElem?_set_self h]
  rfl

theorem insertSorted_cons_lt {x : Entry} {xs : List Entry} {k v : Nat}
    (h : k < x.1) : insertSorted (x :: xs) k v = (k, v) :: x :: xs := by
  rw [insertSorted]
  rw [if_pos h]

theorem insertSorted_cons_eq {x : Entry} {xs : List Entry} {k v : Nat}
    (h : k = x.1) : insertSorted (x :: xs) k v = (k, v) :: xs := by
  rw [insertSorted]
  rw [if_neg (by omega), if_pos h]

theorem insertSorted_cons_gt {x : Entry} {xs : List Entry} {k v : Nat}
    (h : x.1 < k) : insertSorted (x :: xs) k v = x :: insertSorted xs k v := by
  rw [insertSorted]
  rw [if_neg (by omega), if_neg (by omega)]

theorem mem_insertSorted {l : List Entry} {k v : Nat} {e : Entry}
    (he : e ∈ insertSorted l k v) : e = (k, v) ∨ e ∈ l := by
  induction l with
  | nil =>
    left
    simpa [insertSorted] using he
  | cons x xs ih =>
    rcases Nat.lt_trichotomy k x.1 with h1 | h1 | h1
    · rw [insertSorted_cons_lt h1] at he
      rcases List.mem_cons.mp he with h | h
      · exact Or.inl h
      · exact Or.inr h
    · rw [insertSorted_cons_eq h1] at he
      rcases List.mem_cons.mp he with h | h
      · exact Or.inl h
      · exact Or.inr (List.mem_cons_of_mem _ h)
    · rw [insertSorted_cons_gt h1] at he
      rcases List.mem_cons.mp he with h | h
      · exact Or.inr (h ▸ List.mem_cons_self x xs)
      · rcases ih h with h2 | h2
        · exact Or.inl h2
        · exact Or.inr (List.mem_cons_of_mem _ h2)

theorem insertSorted_mem_self (l : List Entry) (k v : Nat) :
    (k, v) ∈ insertSorted l k v := by
  induction l with
  | nil => simp [insertSorted]
  | cons x xs ih =>
    rcases Nat.lt_trichotomy k x.1 with h1 | h1 | h1
    · rw [insertSorted_cons_lt h1]
      exact List.mem_cons_self _ _
    · rw [insertSorted_cons_eq h1]
      exact List.mem_cons_self _ _
    · rw [insertSorted_cons_gt h1]
      exact List.mem_cons_of_mem _ ih

theorem insertSorted_sorted {l : List Entry} (hs : sortedKeys l) (k v : Nat) :
    sortedKeys (insertSorted l k v) := by
  induction l with
  | nil => simp [insertSorted, sortedKeys]
  | cons x xs ih =>
    have hx : ∀ f ∈ xs, x.1 < f.1 := (List.pairwise_cons.mp hs).1
    have hxs : sortedKeys xs := (List.pairwise_cons.mp hs).2
    rcases Nat.lt_trichotomy k x.1 with h1 | h1 | h1
    · rw [insertSorted_cons_lt h1]
      refine List.pairwise_cons.mpr ⟨?_, hs⟩
      intro f hf
      rcases List.mem_cons.mp hf with h | h
      · rw [h]
        exact h1
      · exact lt_trans h1 (hx f h)
    · rw [insertSorted_cons_eq h1]
      refine List.pairwise_cons.mpr ⟨?_, hxs⟩
      intro f hf
      rw [show ((k, v) : Entry).1 = x.1 from h1]
      exact hx f hf
    · rw [insertSorted_cons_gt h1]
      refine List.pairwise_cons.mpr ⟨?_, ih hxs⟩
      intro f hf
      rcases mem_insertSorted hf with h | h
      · rw [h]
        exact h1
      · exact hx f h

theorem insertSorted_insertSorted (l : List Entry) (k v1 v2 : Nat) :
    insertSorted (insertSorted l k v1) k v2 = insertSorted l k v2 := by
  induction l with
  | nil => simp [insertSorted]
  | cons x xs ih =>
    rcases Nat.lt_trichotomy k x.1 with h1 | h1 | h1
    · rw [insertSorted_cons_lt h1, insertSorted_cons_eq rfl,
        insertSorted_cons_lt h1]
    · rw [insertSorted_cons_eq h1, insertSorted_cons_eq rfl,
        insertSorted_cons_eq h1]
    · rw [insertSorted_cons_gt h1, insertSorted_cons_gt h1,
        insertSorted_cons_gt h1, ih]

theorem register_tag_heap (s : MemState) (t h : Nat) :
    (register_tag s t h).heap = s.heap := by
  unfold register_tag
  split <;> rfl

theorem register_tag_no_growth (s : MemState) (t h : Nat)
    (hg : ¬ s.aaSize < s.idCount) :
    register_tag s t h =
      { s with
        arr := s.arr.set t h,
        idCount :=
          if containsKey s.mmap.entries (s.deref h).base then s.idCount
          else (s.idCount + 1) % tagMod,
        mmap := { s.mmap with
          entries := insertSorted s.mmap.entries (s.deref h).base t } } := by
  unfold register_tag
  rw [if_neg hg]

theorem le_alignUp (p a : Nat) : p ≤ alignUp p a := by
  unfold alignUp
  exact Nat.le_add_right _ _

theorem owns_stack {a : Allocator} (hk : a.kind = AllocatorKind.stack)
    (p : Nat) (h1 : a.base ≤ p) (h2 : p < a.base + a.capacity) :
    a.owns p = true := by
  unfold Allocator.owns
  rw [hk]
  simp only [decide_eq_true_eq]
  exact ⟨h1, h2⟩

-- ---------------------------------------------------------------------------
-- Claims
-- ---------------------------------------------------------------------------

/-- C1 (amended): the claim as frozen — `allocate(n, T)` followed by
`get_owner` on the result always yields `T`, in particular for tags sharing
one strategy — fails on the code (see the counterexample), because the
ownership map stores exactly one tag per base address: the one written by
the LAST registration for that base.  Amended statement: for a registered
tag `t` backed by a stack strategy with room for a positive request,
`allocate` succeeds and `get_owner` of the returned address yields the tag
`t'` currently stored in the map at the strategy's base — equal to `t`
itself exactly when `t` was the last (for instance the only) tag registered
against that base.  Hypotheses: the directory maps both `t` and `t'` to the
strategy pointer `h`, the map is sorted and live and holds the entry
`(base, t')`, and no other registered base lies in the interval from the base
(exclusive) to the returned address (inclusive). -/
theorem C1_roundtrip_mapped_tag (sysAlloc : Nat → Nat) (s s' : MemState)
    (n t t' h p : Nat)
    (hh : s.arr.getD t 0 = h)
    (hkind : (s.deref h).kind = AllocatorKind.stack)
    (hn : 0 < n)
    (halloc : MemorySystem.allocate sysAlloc s n t = some (p, s'))
    (hsorted : sortedKeys s.mmap.entries)
    (hdying : s.mmap.dying = false)
    (hbase : (s.deref h).base ≠ 0)
    (hmem : ((s.deref h).base, t') ∈ s.mmap.entries)
    (ht' : t' ≠ INVALID)
    (hsame : s.arr.getD t' 0 = h)
    (hvalid : h - 1 < s.heap.length)
    (hsep : ∀ e ∈ s.mmap.entries, e.1 ≤ (s.deref h).base ∨ p < e.1) :
    MemorySystem.get_owner s' p = t' := by
  simp only [MemorySystem.allocate] at halloc
  rw [hh] at halloc
  have hA : (s.deref h).allocate sysAlloc n MEMORY_PADDING
      = (s.deref h).stackAllocate n MEMORY_PADDING := by
    unfold Allocator.allocate
    rw [hkind]
  rw [hA] at halloc
  cases hsa : (s.deref h).stackAllocate n MEMORY_PADDING with
  | none =>
    rw [hsa] at halloc
    simp at halloc
  | some pa =>
    obtain ⟨pv, av⟩ := pa
    rw [hsa] at halloc
    simp only [Option.some.injEq, Prod.mk.injEq] at halloc
    obtain ⟨hp, hs'⟩ := halloc
    simp only [Allocator.stackAllocate] at hsa
    split at hsa
    · simp at hsa
    · next hcap =>
      simp only [Option.some.injEq, Prod.mk.injEq] at hsa
      obtain ⟨hP, hA'⟩ := hsa
      subst hs'
      subst hp
      subst hP
      have havKind : av.kind = AllocatorKind.stack := by
        rw [← hA']
        exact hkind
      have havBase : av.base = (s.deref h).base := by
        rw [← hA']
      have havCap : av.capacity = (s.deref h).capacity := by
        rw [← hA']
      have hbP : (s.deref h).base
          ≤ alignUp ((s.deref h).base + (s.deref h).used) MEMORY_PADDING :=
        le_trans (Nat.le_add_right _ _) (le_alignUp _ _)
      have hPne : alignUp ((s.deref h).base + (s.deref h).used) MEMORY_PADDING
          ≠ 0 := by omega
      have hPlt : alignUp ((s.deref h).base + (s.deref h).used) MEMORY_PADDING
          < (s.deref h).base + (s.deref h).capacity := by omega
      have hfb : s.mmap.get_first_before
          (alignUp ((s.deref h).base + (s.deref h).used) MEMORY_PADDING)
          = t' :=
        get_first_before_of_mem s.mmap hsorted hdying hPne hmem hbP hsep
      unfold MemorySystem.get_owner
      dsimp only
      rw [hfb, if_neg ht', hsame]
      have hdr : MemState.deref
          { s with heap := s.heap.set (h - 1) av } h = av := by
        unfold MemState.deref
        dsimp only
        exact getD_set_self _ _ _ _ hvalid
      rw [hdr]
      have h1 : av.base
          ≤ alignUp ((s.deref h).base + (s.deref h).used) MEMORY_PADDING := by
        rw [havBase]
        exact hbP
      have h2 : alignUp ((s.deref h).base + (s.deref h).used) MEMORY_PADDING
          < av.base + av.capacity := by
        rw [havBase, havCap]
        exact hPlt
      rw [owns_stack havKind _ h1 h2]
      simp

/-- C1 witness: tag 0 is the only tag registered against the stack strategy
of `exSingle`; `allocate(100, 0)` returns address 1000 and `get_owner`
recovers tag 0. -/
theorem C1_witness :
    MemorySystem.get_owner exSingleAfter 1000 = 0 :=
  C1_roundtrip_mapped_tag (fun _ => 0) exSingle exSingleAfter 100 0 0 1 1000
    (by decide) (by decide) (by decide) (by decide)
    (by simp [exSingle, sortedKeys]) rfl
    (by decide) (by decide) (by decide) (by decide) (by decide) (by decide)

/-- C1 counterexample: tags 0 and 1 are registered, in that order, against
one shared stack strategy with 1024 free bytes (so the remaining-capacity
premise of the claim holds for n = 100); `allocate(100, 0)` succeeds,
returning address 1000, yet `get_owner` of that address yields tag 1, not
the allocating tag 0 — the round-trip claim fails for shared strategies. -/
theorem C1_counterexample :
    (exShared.deref (exShared.arr.getD 0 0)).used = 0
    ∧ (exShared.deref (exShared.arr.getD 0 0)).capacity = 1024
    ∧ MemorySystem.allocate (fun _ => 0) exShared 100 0
        = some (1000, exSharedAfter)
    ∧ MemorySystem.get_owner exSharedAfter 1000 = 1
    ∧ (1 : Nat) ≠ 0 := by
  decide

/-- C2: `MemorySystem::deallocate(ptr, tag)` frees the pointer through the
tag's strategy exactly when that strategy's `owns(ptr)` holds; when it does
not, no free is performed and the fatal branch is taken, so a mismatched
deallocation never releases memory through the wrong allocator. -/
theorem C2_deallocate_owns_guard (s : MemState) (p t : Nat) :
    (MemorySystem.deallocate s p t = .fatal ↔
      (s.deref (s.arr.getD t 0)).owns p = false)
    ∧ ((s.deref (s.arr.getD t 0)).owns p = true →
        MemorySystem.deallocate s p t =
          .ok (s.arr.getD t 0)
            ((s.deref (s.arr.getD t 0)).free p).2
            { s with heap := s.heap.set (s.arr.getD t 0 - 1) ((s.deref (s.arr.getD t 0)).free p).1 }) := by
  unfold MemorySystem.deallocate
  by_cases h : (s.deref (s.arr.getD t 0)).owns p = false
  · rw [if_pos h]
    constructor
    · exact ⟨fun _ => h, fun _ => rfl⟩
    · intro ht
      rw [ht] at h
      cases h
  · rw [if_neg h]
    constructor
    · constructor
      · intro hcon
        cases hcon
      · intro hf
        exact absurd hf h
    · intro _
      rfl

/-- C2 witness: on the example state, an owned address is freed through the
tag's strategy and an address outside the strategy's region is fatal. -/
theorem C2_witness :
    MemorySystem.deallocate exState 1500 0 =
      .ok (exState.arr.getD 0 0)
        ((exState.deref (exState.arr.getD 0 0)).free 1500).2
        { exState with heap := exState.heap.set (exState.arr.getD 0 0 - 1) ((exState.deref (exState.arr.getD 0 0)).free 1500).1 }
    ∧ MemorySystem.deallocate exState 5000 0 = .fatal :=
  ⟨(C2_deallocate_owns_guard exState 1500 0).2 (by decide),
   (C2_deallocate_owns_guard exState 5000 0).1.mpr (by decide)⟩

/-- C3: the address-ownership lookup `MemoryMap::get_first_before` (used by
`get_owner`) returns the invalid tag for a null address, and otherwise (in a
live, non-empty map) returns the tag stored at the greatest registered base
address that is at most the queried address — an exact base hit included —
where "no such base" (the address lies strictly before the smallest
registered base, second conjunct) yields the invalid tag; no strategy
ownership predicate is consulted — the lookup is a function of the map
alone, as its type shows. -/
theorem C3_nearest_base_lookup (m : MemoryMap) (hs : sortedKeys m.entries)
    (hd : m.dying = false) (hne : m.entries ≠ []) (address : Nat) :
    m.get_first_before address =
      (if address = 0 then INVALID
       else
         match nearestLE m.entries address with
         | none => INVALID
         | some e => e.2)
    ∧ (nearestLE m.entries address = none ↔ ∀ e ∈ m.entries, address < e.1) :=
  ⟨get_first_before_eq_nearestLE m hs hd hne address,
   nearestLE_eq_none_iff m.entries address⟩

/-- C3 witness: the lookup evaluated on a concrete two-entry map. -/
theorem C3_witness :
    ((MemoryMap.mk [(10, 1), (20, 2)] false).get_first_before 15 =
      (if (15 : Nat) = 0 then INVALID
       else
         match nearestLE [(10, 1), (20, 2)] 15 with
         | none => INVALID
         | some e => e.2)
    ∧ (nearestLE [(10, 1), (20, 2)] 15 = none ↔
        ∀ e ∈ [((10 : Nat), (1 : Nat)), (20, 2)], 15 < e.1)) :=
  C3_nearest_base_lookup (MemoryMap.mk [(10, 1), (20, 2)] false)
    (by constructor <;> simp) rfl (by simp) 15

/-- C4 (amended): the claim as frozen says that when several tags are
registered against one shared strategy instance, `get_owner` returns the
FIRST-registered of them; on the code each registration overwrites the map
entry at the shared base (`std::map::operator[]` assignment), so `get_owner`
of an owned address returns the LAST-registered tag.  Amended statement:
registering `t1` and then `t2` against the same strategy instance makes
`get_owner` of the strategy's base address return `t2`. -/
theorem C4_last_registered_tag (s : MemState) (t1 t2 h : Nat)
    (hs : sortedKeys s.mmap.entries)
    (hd : s.mmap.dying = false)
    (hg : s.idCount + 1 ≤ s.aaSize)
    (hb : (s.deref h).base ≠ 0)
    (ht2 : t2 ≠ INVALID)
    (hlen : t2 < s.arr.length)
    (howns : (s.deref h).owns ((s.deref h).base) = true) :
    MemorySystem.get_owner (register_tag (register_tag s t1 h) t2 h)
      ((s.deref h).base) = t2 := by
  have hg1 : ¬ s.aaSize < s.idCount := by omega
  have e1 := register_tag_no_growth s t1 h hg1
  have hderef1 : ∀ h' : Nat, (register_tag s t1 h).deref h' = s.deref h' := by
    intro h'
    unfold MemState.deref
    rw [register_tag_heap]
  have hid1 : (register_tag s t1 h).idCount ≤ s.idCount + 1 := by
    rw [e1]
    dsimp only
    split
    · omega
    · exact Nat.mod_le _ _
  have haa1 : (register_tag s t1 h).aaSize = s.aaSize := by rw [e1]
  have hg2 : ¬ (register_tag s t1 h).aaSize
      < (register_tag s t1 h).idCount := by
    rw [haa1]
    omega
  have e2 := register_tag_no_growth (register_tag s t1 h) t2 h hg2
  have hment : (register_tag (register_tag s t1 h) t2 h).mmap.entries
      = insertSorted s.mmap.entries ((s.deref h).base) t2 := by
    rw [e2]
    dsimp only
    rw [hderef1, e1]
    dsimp only
    exact insertSorted_insertSorted _ _ _ _
  have hdy2 : (register_tag (register_tag s t1 h) t2 h).mmap.dying = false := by
    rw [e2]
    dsimp only
    rw [e1]
    dsimp only
    exact hd
  have harr2 : (register_tag (register_tag s t1 h) t2 h).arr.getD t2 0 = h := by
    rw [e2]
    dsimp only
    rw [e1]
    dsimp only
    exact getD_set_self _ _ _ _ (by rw [List.length_set]; exact hlen)
  have hderef2 : ∀ h' : Nat,
      (register_tag (register_tag s t1 h) t2 h).deref h' = s.deref h' := by
    intro h'
    unfold MemState.deref
    rw [register_tag_heap, register_tag_heap]
  have hfb : (register_tag (register_tag s t1 h) t2 h).mmap.get_first_before
      ((s.deref h).base) = t2 := by
    apply get_first_before_of_mem
    · rw [hment]
      exact insertSorted_sorted hs _ _
    · exact hdy2
    · exact hb
    · rw [hment]
      exact insertSorted_mem_self _ _ _
    · exact le_refl _
    · intro e _
      omega
  unfold MemorySystem.get_owner
  rw [hfb, if_neg ht2, harr2, hderef2, howns]
  simp

/-- C4 witness: registering tags 0 and 1, in that order, against the one
shared stack strategy of `exShared0`, then querying the strategy's base
address, yields the later tag 1. -/
theorem C4_witness :
    MemorySystem.get_owner (register_tag (register_tag exShared0 0 1) 1 1)
      ((exShared0.deref 1).base) = 1 :=
  C4_last_registered_tag exShared0 0 1 1 (by simp [exShared0, sortedKeys])
    rfl (by decide) (by decide) (by decide) (by decide) (by decide)

/-- C4 counterexample: in the freshly initialized state the six data-type
tags (ids 2..7) are registered in declaration order against the shared
free-list strategy; `get_owner` of the strategy's base address returns tag 7
(`Callback`, the last of them registered), not the first-registered tag 2
(`Array`) — the claim's "first-registered" tie-break is false on the code. -/
theorem C4_counterexample :
    MemorySystem.get_owner (initialState 1000 10000) 10000 = 7
    ∧ constructBaseMemoryTags.Array = 2
    ∧ constructBaseMemoryTags.Callback = 7
    ∧ (7 : Nat) ≠ 2 := by
  decide

/-- C5: evaluation of `update_allocator_array` at the failing input of the
claim: growing from a directory holding eight registered entries
(`_aa_size = 8`) to nine slots executes `memcpy(dst, old, _aa_size)` with
`_aa_size` — a count of ENTRIES — as the byte count, copying 8 bytes = one
64-bit pointer; the grown array keeps only entry 0 and nulls entries 1..7,
so previously registered tag-to-strategy entries are lost, contrary to the
claimed preservation. -/
theorem C5_growth_loses_entries :
    (initialState 1000 10000).arr = [1, 2, 3, 3, 3, 3, 3, 3]
    ∧ (update_allocator_array (initialState 1000 10000).arr 8 9).1
        = [1, 0, 0, 0, 0, 0, 0, 0, 0] := by
  decide

/-- C6: evaluation of the tag-counter code at the failing input of the
claim: after the static construction of `BaseMemoryTags` — whose constructor
body resets `MemoryTag::id_count` to 0 after its eight members consumed ids
0 through 7 — the next default-constructed tag receives id 0 again, which
compares equal to `BaseMemoryTags.Unknown`: two tags issued over the process
lifetime collide, contrary to the claimed uniqueness. -/
theorem C6_duplicate_tag_after_base_construction :
    constructBaseMemoryTags.idCountAfter = 0
    ∧ (newTag constructBaseMemoryTags.idCountAfter).1
        = constructBaseMemoryTags.Unknown
    ∧ constructBaseMemoryTags.Unknown = 0
    ∧ constructBaseMemoryTags.Callback = 7 := by
  decide

/-- C7: the global deallocation hook routes by ownership — when `get_owner`
yields a tag different from the invalid tag, `operator delete` calls
`MemorySystem::deallocate` with that tag, otherwise it releases the pointer
through the system deallocator; `operator delete[]` behaves identically. -/
theorem C7_delete_routes_by_ownership (s : MemState) (p : Nat) :
    (MemorySystem.get_owner s p ≠ INVALID →
      opDelete s p = .viaMemorySystem (MemorySystem.get_owner s p)
        (MemorySystem.deallocate s p (MemorySystem.get_owner s p)))
    ∧ (MemorySystem.get_owner s p = INVALID → opDelete s p = .systemFree)
    ∧ opDeleteArr s p = opDelete s p := by
  refine ⟨?_, ?_, rfl⟩
  · intro h
    unfold opDelete
    rw [if_pos h]
  · intro h
    unfold opDelete
    rw [if_neg (by simp [h])]

/-- C7 witness: on the example state, an owned address is routed to
`deallocate` and an unowned one falls back to the system deallocator. -/
theorem C7_witness :
    opDelete exState 1500 =
      .viaMemorySystem (MemorySystem.get_owner exState 1500)
        (MemorySystem.deallocate exState 1500
          (MemorySystem.get_owner exState 1500))
    ∧ opDelete exState 5000 = .systemFree :=
  ⟨(C7_delete_routes_by_ownership exState 1500).1 (by decide),
   (C7_delete_routes_by_ownership exState 5000).2.1 (by decide)⟩

/-- C8: the pass-through strategy: `CAllocator::allocate` returns exactly
what the system allocator returns for the requested size (leaving the
instance unchanged), `free` forwards the pointer to the system deallocator,
and `owns(p)` holds precisely for non-null `p` — for every size, alignment
and pointer. -/
theorem C8_callocator_passthrough (sysAlloc : Nat → Nat)
    (size align p : Nat) :
    Allocator.allocate sysAlloc CAllocator_new size align
        = some (sysAlloc size, CAllocator_new)
    ∧ (CAllocator_new.free p).2 = FreeRoute.system
    ∧ (CAllocator_new.free p).1 = CAllocator_new
    ∧ (CAllocator_new.owns p = true ↔ p ≠ 0) := by
  refine ⟨rfl, rfl, rfl, ?_⟩
  simp [Allocator.owns, CAllocator_new]

/-- C9: whenever the memory map's `_dying` flag is set (its destructor has
begun), `get_first_before` returns the invalid tag for every address, hence
`get_owner` returns the invalid tag and `operator delete` falls back to the
system deallocator — no custom allocator is reached and no map entry is
read. -/
theorem C9_shutdown_guard (s : MemState) (p : Nat)
    (hdying : s.mmap.dying = true) :
    s.mmap.get_first_before p = INVALID
    ∧ MemorySystem.get_owner s p = INVALID
    ∧ opDelete s p = .systemFree := by
  have h1 := get_first_before_dying s.mmap hdying p
  have h2 : MemorySystem.get_owner s p = INVALID := by
    unfold MemorySystem.get_owner
    rw [h1]
    simp
  refine ⟨h1, h2, ?_⟩
  unfold opDelete
  rw [if_neg (by simp [h2])]

/-- C9 witness: the shutdown guard evaluated on a concrete dying state. -/
theorem C9_witness :
    exDying.mmap.get_first_before 1500 = INVALID
    ∧ MemorySystem.get_owner exDying 1500 = INVALID
    ∧ opDelete exDying 1500 = .systemFree :=
  C9_shutdown_guard exDying 1500 rfl

/-- C10: deleting a null pointer is safe — `get_first_before` returns the
invalid tag for address 0 in any map state, so `get_owner` of null is the
invalid tag and `operator delete` falls through to the system `free`,
never invoking `MemorySystem::deallocate` or any strategy. -/
theorem C10_null_delete_safe (s : MemState) :
    s.mmap.get_first_before 0 = INVALID
    ∧ MemorySystem.get_owner s 0 = INVALID
    ∧ opDelete s 0 = .systemFree := by
  have h1 : s.mmap.get_first_before 0 = INVALID := by
    unfold MemoryMap.get_first_before
    rw [if_pos rfl]
  have h2 : MemorySystem.get_owner s 0 = INVALID := by
    unfold MemorySystem.get_owner
    rw [h1]
    simp
  refine ⟨h1, h2, ?_⟩
  unfold opDelete
  rw [if_neg (by simp [h2])]

end A172
